import Mathlib

/-!
# Cache managers: a shallow embedding

A Lean model of the JSON-file cache managers (`JsonCacheManager` and its
subclasses `ArrayFileManager`, `SetFileManager`, `RecordFileManager`,
`MapFileManager`, the `PromiseQueue` serializer, and the superseded
`ListFileManager`).

Modelling choices, stated once:

* A parsed JSON document is viewed at its top level only (`JsonDoc α`): the
  managers never inspect below the top level (the `JSON.parse` reviver returns
  every non-root value unchanged; `new Set(value)` and `Object.entries(value)`
  consume only the top-level elements / fields), so the element type is an
  abstract `α` with decidable equality.  Decidable equality on `α` stands for
  JavaScript's SameValueZero; states that JavaScript can only tell apart by
  object reference are outside the model.
* A JavaScript `Set` is modelled as its insertion-ordered element list with no
  duplicates reachable by construction; a `Map` and a plain object as their
  insertion-ordered entry lists (prototype-chain effects of plain objects are
  out of scope).
* The filesystem read is a `FileRead`: the file is absent (`readFile` rejects
  with `ENOENT`), the read fails with another fs error, or it yields a string.
* `JSON.parse` on the raw text is an abstract parameter
  `parse : String → Option (JsonDoc α)`; `none` stands for a `SyntaxError`.
  For the save-then-load law the text layer is elided entirely
  (`JSON.parse ∘ JSON.stringify` is the identity on JSON documents), so the
  law is stated on `saveDoc` (the value `save` stringifies) and `loadDoc`
  (what `load` does once `JSON.parse` has produced a document).
* A promise-returning method is modelled by the settled state of the promise
  the caller awaits, `Except String Unit` (`.error msg` = rejection); the fate
  of the enqueued `save` is an explicit parameter `saveResult`, and each
  mutator also reports whether it invoked `save` at all (`triggeredSave`).
* `load` and `loadSync` have verbatim-identical bodies in the source apart
  from the blocking read, so one definition models both.
-/

/-- A JSON document seen at its top level: the structural kind plus its
immediate contents. Numbers are modelled as integers (every number the claims
touch is integral; float representation is out of scope). -/
inductive JsonDoc (α : Type) where
  | null
  | bool (b : Bool)
  | num (n : Int)
  | str (s : String)
  | arr (items : List α)
  | obj (fields : List (String × α))
deriving DecidableEq

/-- The result of JavaScript's `typeof` on a top-level JSON value.
`typeof null` and `typeof` of any array or object are all `"object"`. -/
inductive TypeofResult where
  | objectType
  | booleanType
  | numberType
  | stringType
deriving DecidableEq

/-- `typeof value` for a parsed JSON value. -/
def jsTypeof {α : Type} : JsonDoc α → TypeofResult
  | .null => .objectType
  | .bool _ => .booleanType
  | .num _ => .numberType
  | .str _ => .stringType
  | .arr _ => .objectType
  | .obj _ => .objectType

/-- `Array.isArray(value)` for a parsed JSON value. -/
def jsIsArray {α : Type} : JsonDoc α → Bool
  | .arr _ => true
  | _ => false

/-- Modelled from the spec: "array vs. object vs. other", the vocabulary the
spec uses for top-level structural kinds. -/
inductive StructuralKind where
  | arrayKind
  | objectKind
  | otherKind
deriving DecidableEq

/-- Modelled from the spec: the top-level structural kind of a JSON document,
"array vs. object vs. other" (used only to state claims about shape
mismatches; the code itself branches on `typeof`/`Array.isArray`). -/
def structuralKind {α : Type} : JsonDoc α → StructuralKind
  | .arr _ => .arrayKind
  | .obj _ => .objectKind
  | _ => .otherKind

/-- `Array.prototype.includes(item)`: membership under SameValueZero. -/
def jsIncludes {α : Type} [DecidableEq α] (xs : List α) (x : α) : Bool :=
  decide (x ∈ xs)

/-- `Array.prototype.at(index)`: a negative index counts back from the end;
out of range yields `undefined` (`none`). -/
def jsAt {α : Type} (xs : List α) (index : Int) : Option α :=
  let k : Int := if index < 0 then Int.ofNat xs.length + index else index
  if k < 0 then none else xs[k.toNat]?

/-- `Set.prototype.add(x)`: appends in iteration order unless already present. -/
def jsSetInsert {α : Type} [DecidableEq α] (s : List α) (x : α) : List α :=
  if x ∈ s then s else s ++ [x]

/-- `new Set(xs)`: inserts the elements of `xs` left to right. -/
def jsSetOfList {α : Type} [DecidableEq α] (xs : List α) : List α :=
  xs.foldl jsSetInsert []

/-- `Map.prototype.has(k)` / `Object.prototype.hasOwnProperty(k)` on an
entry-list view of a map or plain object. -/
def jsMapHas {α : Type} (m : List (String × α)) (k : String) : Bool :=
  m.any fun e => e.1 == k

/-- `Map.prototype.get(k)` / property read `obj[k]`: the value of the entry
with key `k`, or `undefined` (`none`). -/
def jsMapGet {α : Type} (m : List (String × α)) (k : String) : Option α :=
  (m.find? fun e => e.1 == k).map Prod.snd

/-- `Map.prototype.set(k, v)` / property write `obj[k] = v`: updates the
existing entry in place (keeping its position) or appends a new one. -/
def jsMapSet {α : Type} (m : List (String × α)) (k : String) (v : α) :
    List (String × α) :=
  if jsMapHas m k then m.map fun e => if e.1 == k then (k, v) else e
  else m ++ [(k, v)]

/-- `new Map(entries)`: runs `set` over the entries left to right. -/
def jsMapOfEntries {α : Type} (es : List (String × α)) : List (String × α) :=
  es.foldl (fun m e => jsMapSet m e.1 e.2) []

/-- The ASCII whitespace characters `String.prototype.trim` strips (the
claims only concern ASCII content; Unicode whitespace is out of scope). -/
def jsWhitespaceChar (c : Char) : Bool :=
  c == ' ' || c == '\t' || c == '\n' || c == '\r'

/-- `String.prototype.trim()`: strips leading and trailing whitespace. -/
def jsTrim (s : String) : String :=
  String.mk (((s.data.dropWhile jsWhitespaceChar).reverse.dropWhile
    jsWhitespaceChar).reverse)

/-- The in-memory cache value a `JsonCacheManager` owns: a plain JSON value
(`JSONParsable`, covering `ArrayFileManager`'s array and
`RecordFileManager`'s plain object), a `Set`, or a `Map`. -/
inductive CacheValue (α : Type) where
  | plain (v : JsonDoc α)
  | set (elems : List α)
  | map (entries : List (String × α))
deriving DecidableEq

instance {ε β : Type} [DecidableEq ε] [DecidableEq β] : DecidableEq (Except ε β) :=
  fun a b =>
    match a, b with
    | .ok x, .ok y =>
      if h : x = y then .isTrue (congrArg Except.ok h)
      else .isFalse fun hh => h (Except.ok.inj hh)
    | .error x, .error y =>
      if h : x = y then .isTrue (congrArg Except.error h)
      else .isFalse fun hh => h (Except.error.inj hh)
    | .ok _, .error _ => .isFalse fun hh => Except.noConfusion hh
    | .error _, .ok _ => .isFalse fun hh => Except.noConfusion hh

/-- How `load`/`loadSync` can fail: a non-`ENOENT` filesystem error rethrown
from the catch block, a `SyntaxError` from `JSON.parse` on malformed text, or
the plain `Error` (with its message) the reviver throws on a shape mismatch.
The constructors are distinct, as the three JavaScript error classes are. -/
inductive LoadError where
  | ioFailure
  | parseFailure
  | shapeMismatch (msg : String)
deriving DecidableEq

/-- What a call to `load`/`loadSync` leaves behind: the settled state of the
returned promise (`.ok flag` = resolved with `flag`, `.error e` = threw) and
the value of `this.__cache` afterwards. -/
structure LoadResult (α : Type) where
  outcome : Except LoadError Bool
  cache : CacheValue α
deriving DecidableEq

/-- What reading the file at `this.path` yields: the file is absent
(`readFile` rejects with `ENOENT`), the read fails with some other
filesystem error, or it produces the file's text. -/
inductive FileRead where
  | missing
  | failed
  | content (raw : String)

/-- The root case (`key === ""`) of the reviver `load`/`loadSync` pass to
`JSON.parse`: a `Set` cache requires an array and converts it with
`new Set(value)`; a `Map` cache requires a non-null, non-array object and
converts it with `new Map(Object.entries(value))`; any other cache accepts
`value` unless `typeof` disagrees and the two are not both arrays.
`.error msg` models `throw new Error(msg)`. -/
def JsonCacheManager.reviveRoot {α : Type} [DecidableEq α]
    (cache : CacheValue α) (value : JsonDoc α) : Except String (CacheValue α) :=
  match cache with
  | .set _ =>
    match value with
    | .arr items => .ok (.set (jsSetOfList items))
    | _ => .error "Expected an array or empty for Set Cache."
  | .map _ =>
    match value with
    | .obj fields => .ok (.map (jsMapOfEntries fields))
    | _ => .error "Expected an object or empty for Map Cache."
  | .plain c =>
    if (jsTypeof c != jsTypeof value) && (!(jsIsArray c) || !(jsIsArray value)) then
      .error "The file content does not match the cache type."
    else .ok (.plain value)

/-- What `load`/`loadSync` does once `JSON.parse` has produced the document
`doc`: run the reviver at the root; on success assign `this.__cache = obj`
and return `true`, on a reviver throw propagate it with the cache untouched. -/
def JsonCacheManager.loadDoc {α : Type} [DecidableEq α]
    (cache : CacheValue α) (doc : JsonDoc α) : LoadResult α :=
  match JsonCacheManager.reviveRoot cache doc with
  | .error msg => ⟨.error (.shapeMismatch msg), cache⟩
  | .ok updated => ⟨.ok true, updated⟩

/-- `JsonCacheManager.load` (and the verbatim-identical `loadSync`): read the
file (`ENOENT` is caught and yields `false`; other fs errors rethrow), trim
the raw text and return `false` if nothing is left, parse it
(`none` = `SyntaxError`, rethrown), then apply the reviver and on success
replace the cache and return `true`. -/
def JsonCacheManager.load {α : Type} [DecidableEq α]
    (parse : String → Option (JsonDoc α)) (cache : CacheValue α) :
    FileRead → LoadResult α
  | .missing => ⟨.ok false, cache⟩
  | .failed => ⟨.error .ioFailure, cache⟩
  | .content raw0 =>
    let raw := jsTrim raw0
    if raw = "" then ⟨.ok false, cache⟩
    else
      match parse raw with
      | none => ⟨.error .parseFailure, cache⟩
      | some doc => JsonCacheManager.loadDoc cache doc

/-- The value `JsonCacheManager.save` passes to `JSON.stringify` (and then
writes to `path + ".tmp"` before renaming onto `path`): a `Set` cache is
spread into an array, a `Map` cache goes through `Object.fromEntries`, any
other cache is stringified as is. -/
def JsonCacheManager.saveDoc {α : Type} : CacheValue α → JsonDoc α
  | .set xs => .arr xs
  | .map es => .obj es
  | .plain v => v

/-- The value `MapFileManager.save` (the override) passes to
`JSON.stringify`: `Object.fromEntries(this.cache)`. It agrees with the base
class's `saveDoc` on `Map` caches. -/
def MapFileManager.saveDoc {α : Type} (entries : List (String × α)) : JsonDoc α :=
  .obj entries

/-- The initial cache of a freshly constructed manager of the same class:
`new ArrayFileManager(path)` starts from `[]`, `new RecordFileManager(path)`
from `{}`, `new SetFileManager(path)` from `new Set()`, `new
MapFileManager(path)` from `new Map()`. -/
def freshCache {α : Type} : CacheValue α → CacheValue α
  | .plain (.arr _) => .plain (.arr [])
  | .plain _ => .plain (.obj [])
  | .set _ => .set []
  | .map _ => .map []

/-- Whether a `CacheValue` is the in-memory state of one of the four manager
classes: an array (`ArrayFileManager`), a plain object with JavaScript's
no-duplicate-key invariant (`RecordFileManager`), a `Set` (whose elements are
unique by construction), or a `Map` (whose keys are unique by construction). -/
def isManagerCache {α : Type} [DecidableEq α] : CacheValue α → Bool
  | .plain (.arr _) => true
  | .plain (.obj es) => decide (es.map Prod.fst).Nodup
  | .plain _ => false
  | .set xs => decide xs.Nodup
  | .map es => decide ((es.map Prod.fst).Nodup)

/-- Modelled from the spec: the cache kind a manager expects its file's
top-level JSON value to have, in the spec's "array vs. object vs. other"
vocabulary. -/
def cacheStructuralKind {α : Type} : CacheValue α → StructuralKind
  | .plain v => structuralKind v
  | .set _ => .arrayKind
  | .map _ => .objectKind

/-- What a mutating manager method leaves behind: the settled state of the
promise the caller awaits (`.error msg` models a rejection), the cache
afterwards, and whether the method invoked `save` at all. -/
structure MutResult (κ : Type) where
  result : Except String Unit
  cache : κ
  triggeredSave : Bool
deriving DecidableEq

/-- What a read-only manager method returns: its value, the (unchanged)
cache, and the fact that it never invokes `save`. -/
structure QueryResult (ρ κ : Type) where
  ret : ρ
  cache : κ
  triggeredSave : Bool
deriving DecidableEq

/-- `ArrayFileManager.has(item)`: `this.cache.includes(item)`. -/
def ArrayFileManager.has {α : Type} [DecidableEq α] (cache : List α) (item : α) : Bool :=
  jsIncludes cache item

/-- `ArrayFileManager.get(index)`: `this.cache.at(index)`. -/
def ArrayFileManager.get {α : Type} (cache : List α) (index : Int) : Option α :=
  jsAt cache index

/-- `ArrayFileManager.add(item, unique = true)`: pushes `item` when
`(unique && !this.has(item)) || !unique`, then returns `this.save()` —
`save` runs (and its outcome is the caller's) whether or not the push
happened. -/
def ArrayFileManager.add {α : Type} [DecidableEq α] (saveResult : Except String Unit)
    (cache : List α) (item : α) (unique : Bool) : MutResult (List α) :=
  ⟨saveResult,
   if (unique && !(ArrayFileManager.has cache item)) || !unique then cache ++ [item]
   else cache,
   true⟩

/-- `ArrayFileManager.distinct()`: returns `Array.from(new Set(this.cache))`;
the body neither assigns `this.__cache` nor calls `save`. -/
def ArrayFileManager.distinct {α : Type} [DecidableEq α] (cache : List α) :
    QueryResult (List α) (List α) :=
  ⟨jsSetOfList cache, cache, false⟩

/-- `RecordFileManager.has(key)`: `this.cache.hasOwnProperty(key)`. -/
def RecordFileManager.has {α : Type} (cache : List (String × α)) (key : String) : Bool :=
  jsMapHas cache key

/-- `RecordFileManager.get(key)`: `this.cache[key]`. -/
def RecordFileManager.get {α : Type} (cache : List (String × α)) (key : String) :
    Option α :=
  jsMapGet cache key

/-- `RecordFileManager.set(key, value)`: `this.__cache[key] = value`, then
returns `this.save()`. -/
def RecordFileManager.set {α : Type} (saveResult : Except String Unit)
    (cache : List (String × α)) (key : String) (value : α) :
    MutResult (List (String × α)) :=
  ⟨saveResult, jsMapSet cache key value, true⟩

/-- `RecordFileManager.add(key, value)`:
`if (!this.has(key)) return this.set(key, value);` — on a fresh key the call
is exactly `set` (so `save`'s outcome reaches the caller); on an existing key
nothing happens and the promise resolves with `undefined`. -/
def RecordFileManager.add {α : Type} (saveResult : Except String Unit)
    (cache : List (String × α)) (key : String) (value : α) :
    MutResult (List (String × α)) :=
  if RecordFileManager.has cache key then ⟨.ok (), cache, false⟩
  else RecordFileManager.set saveResult cache key value

/-- `RecordFileManager.delete(key)`: `delete this.__cache[key]`, then
returns `this.save()`. -/
def RecordFileManager.delete {α : Type} (saveResult : Except String Unit)
    (cache : List (String × α)) (key : String) : MutResult (List (String × α)) :=
  ⟨saveResult, cache.filter fun e => !(e.1 == key), true⟩

/-- `MapFileManager.has(key)`: `this.cache.has(key)`. -/
def MapFileManager.has {α : Type} (cache : List (String × α)) (key : String) : Bool :=
  jsMapHas cache key

/-- `MapFileManager.get(key)`: `this.cache.get(key)`. -/
def MapFileManager.get {α : Type} (cache : List (String × α)) (key : String) :
    Option α :=
  jsMapGet cache key

/-- `MapFileManager.set(key, value)`: `this.__cache.set(key, value)`, then
returns `this.save()`. -/
def MapFileManager.set {α : Type} (saveResult : Except String Unit)
    (cache : List (String × α)) (key : String) (value : α) :
    MutResult (List (String × α)) :=
  ⟨saveResult, jsMapSet cache key value, true⟩

/-- `MapFileManager.add(key, value)`:
`if (!this.has(key)) this.set(key, value);` — on a fresh key `set` runs (the
cache mutates and `save` is enqueued) but its promise is **not** returned, so
the caller's promise resolves with `undefined` whatever `save` does; on an
existing key nothing happens. -/
def MapFileManager.add {α : Type} (saveResult : Except String Unit)
    (cache : List (String × α)) (key : String) (value : α) :
    MutResult (List (String × α)) :=
  if MapFileManager.has cache key then ⟨.ok (), cache, false⟩
  else
    let dropped := MapFileManager.set saveResult cache key value
    ⟨.ok (), dropped.cache, dropped.triggeredSave⟩

/-- `ListFileManager.delete(text)` (the superseded string-list manager in
`src/src/classes/manager.ts`):
`this.__cache = this.__cache.filter((cachedId) => cachedId !== text)`, then
returns `this.save()`. -/
def ListFileManager.delete (saveResult : Except String Unit)
    (cache : List String) (text : String) : MutResult (List String) :=
  ⟨saveResult, cache.filter fun cachedId => cachedId != text, true⟩

/-- `PromiseQueue.set(task)`: `next = this.lock.then(() => task())` — if the
lock chain were rejected the task would be skipped and its reason passed on —
and `this.lock = next.then(() => undefined, () => undefined)`, which settles
fulfilled whatever happened to `next`. Returns `(next, the new lock)`. -/
def PromiseQueue.set {ε ρ : Type} (lock : Except ε Unit) (task : Unit → Except ε ρ) :
    Except ε ρ × Except ε Unit :=
  let next : Except ε ρ :=
    match lock with
    | .ok _ => task ()
    | .error e => .error e
  let newLock : Except ε Unit :=
    match next with
    | .ok _ => .ok ()
    | .error _ => .ok ()
  (next, newLock)

/-- Scheduling a list of tasks on one `PromiseQueue`, front first: the list
of settled results the respective callers observe, in scheduling order (the
single-threaded event loop runs the chained continuations sequentially). -/
def PromiseQueue.run {ε ρ : Type} (lock : Except ε Unit) :
    List (Unit → Except ε ρ) → List (Except ε ρ)
  | [] => []
  | task :: rest =>
    let step := PromiseQueue.set lock task
    step.1 :: PromiseQueue.run step.2 rest

/-- Modelled from the spec: "duplicates removed, first occurrence wins, order
preserved" — keep each element's first occurrence, dropping the later ones. -/
def firstOccurrenceDedup {α : Type} [DecidableEq α] : List α → List α
  | [] => []
  | a :: rest => a :: firstOccurrenceDedup (rest.filter fun b => b ≠ a)
termination_by xs => xs.length
decreasing_by
  simp only [List.length_cons]
  exact Nat.lt_succ_of_le (List.length_filter_le _ _)

theorem jsSetInsert_of_not_mem {α : Type} [DecidableEq α] {s : List α} {x : α}
    (h : x ∉ s) : jsSetInsert s x = s ++ [x] := by
  simp [jsSetInsert, h]

theorem jsSetInsert_of_mem {α : Type} [DecidableEq α] {s : List α} {x : α}
    (h : x ∈ s) : jsSetInsert s x = s := by
  simp [jsSetInsert, h]

theorem foldl_jsSetInsert_of_nodup {α : Type} [DecidableEq α] (xs : List α)
    (hnd : xs.Nodup) :
    ∀ acc : List α, (∀ a ∈ xs, a ∉ acc) → xs.foldl jsSetInsert acc = acc ++ xs := by
  induction xs with
  | nil => intro acc _; simp
  | cons a rest ih =>
    intro acc hdisj
    have ha : a ∉ acc := hdisj a (List.mem_cons_self a rest)
    rw [List.foldl_cons, jsSetInsert_of_not_mem ha]
    rw [ih (List.Nodup.of_cons hnd) (acc ++ [a]) ?_]
    · simp
    · intro b hb
      have hb1 : b ∉ acc := hdisj b (List.mem_cons_of_mem a hb)
      have hb2 : b ≠ a := by
        intro hba
        exact (List.nodup_cons.mp hnd).1 (hba ▸ hb)
      simp [List.mem_append, hb1, hb2]

theorem jsSetOfList_of_nodup {α : Type} [DecidableEq α] (xs : List α)
    (hnd : xs.Nodup) : jsSetOfList xs = xs := by
  have := foldl_jsSetInsert_of_nodup xs hnd [] (by simp)
  simpa [jsSetOfList] using this

theorem firstOccurrenceDedup_cons {α : Type} [DecidableEq α] (a : α) (l : List α) :
    firstOccurrenceDedup (a :: l) =
      a :: firstOccurrenceDedup (l.filter fun b => b ≠ a) := by
  rw [firstOccurrenceDedup.eq_def]

theorem foldl_jsSetInsert_eq_dedup {α : Type} [DecidableEq α] (xs : List α) :
    ∀ acc : List α,
      xs.foldl jsSetInsert acc =
        acc ++ firstOccurrenceDedup (xs.filter fun x => decide (x ∉ acc)) := by
  induction xs with
  | nil => intro acc; simp [firstOccurrenceDedup]
  | cons a rest ih =>
    intro acc
    by_cases ha : a ∈ acc
    · rw [List.foldl_cons, jsSetInsert_of_mem ha, ih acc, List.filter_cons]
      simp [ha]
    · rw [List.foldl_cons, jsSetInsert_of_not_mem ha, ih (acc ++ [a])]
      have hcons : ((a :: rest).filter fun x => decide (x ∉ acc)) =
          a :: rest.filter fun x => decide (x ∉ acc) := by
        simp [List.filter_cons, ha]
      rw [hcons, firstOccurrenceDedup_cons]
      have hfilter :
          (rest.filter fun x => decide (x ∉ acc ++ [a])) =
            ((rest.filter fun x => decide (x ∉ acc)).filter fun b => b ≠ a) := by
        rw [List.filter_filter]
        apply List.filter_congr
        intro x _
        by_cases h1 : x = a <;> by_cases h2 : x ∈ acc <;>
          simp [h1, h2, List.mem_append]
      rw [hfilter]
      simp

theorem jsSetOfList_eq_dedup {α : Type} [DecidableEq α] (xs : List α) :
    jsSetOfList xs = firstOccurrenceDedup xs := by
  have h := foldl_jsSetInsert_eq_dedup xs []
  have hfilter : (xs.filter fun x => decide (x ∉ ([] : List α))) = xs := by
    apply List.filter_eq_self.mpr
    intro x _
    simp
  rw [hfilter] at h
  simpa [jsSetOfList] using h

theorem jsMapHas_append {α : Type} (m1 m2 : List (String × α)) (k : String) :
    jsMapHas (m1 ++ m2) k = (jsMapHas m1 k || jsMapHas m2 k) := by
  simp [jsMapHas]

theorem jsMapSet_of_not_has {α : Type} {m : List (String × α)} {k : String}
    (h : jsMapHas m k = false) (v : α) : jsMapSet m k v = m ++ [(k, v)] := by
  simp [jsMapSet, h]

theorem jsMapGet_append_self {α : Type} {m : List (String × α)} {k : String}
    (h : jsMapHas m k = false) (v : α) : jsMapGet (m ++ [(k, v)]) k = some v := by
  induction m with
  | nil => simp [jsMapGet, List.find?]
  | cons e rest ih =>
    have he : (e.1 == k) = false := by
      by_contra hc
      simp only [Bool.not_eq_false] at hc
      simp [jsMapHas, List.any_cons, hc] at h
    have hrest : jsMapHas rest k = false := by
      simp only [jsMapHas, List.any_cons, Bool.or_eq_false_iff] at h
      exact h.2
    simp [jsMapGet, List.find?, he] at ih ⊢
    exact ih hrest

theorem foldl_jsMapSet_of_nodup {α : Type} (es : List (String × α))
    (hnd : (es.map Prod.fst).Nodup) :
    ∀ acc : List (String × α), (∀ e ∈ es, jsMapHas acc e.1 = false) →
      es.foldl (fun m e => jsMapSet m e.1 e.2) acc = acc ++ es := by
  induction es with
  | nil => intro acc _; simp
  | cons e rest ih =>
    intro acc hdisj
    have he : jsMapHas acc e.1 = false := hdisj e (List.mem_cons_self e rest)
    rw [List.foldl_cons, jsMapSet_of_not_has he]
    have hnd' : (rest.map Prod.fst).Nodup := by
      simp only [List.map_cons, List.nodup_cons] at hnd
      exact hnd.2
    rw [ih hnd' (acc ++ [(e.1, e.2)]) ?_]
    · simp
    · intro b hb
      have hb1 : jsMapHas acc b.1 = false := hdisj b (List.mem_cons_of_mem e hb)
      have hb2 : b.1 ≠ e.1 := by
        intro hbe
        simp only [List.map_cons, List.nodup_cons] at hnd
        exact hnd.1 (hbe ▸ List.mem_map_of_mem Prod.fst hb)
      rw [jsMapHas_append, hb1]
      simp only [jsMapHas, List.any_cons, List.any_nil, Bool.false_or,
        Bool.or_false, beq_eq_false_iff_ne]
      exact Ne.symm hb2

theorem jsMapOfEntries_of_nodup {α : Type} (es : List (String × α))
    (hnd : (es.map Prod.fst).Nodup) : jsMapOfEntries es = es := by
  have := foldl_jsMapSet_of_nodup es hnd [] (by intro e _; simp [jsMapHas])
  simpa [jsMapOfEntries] using this

/-- Claim C1: for every cache kind (Sequence/Array, Set, Keyed as Record or
Map) and every in-memory cache value of that kind, `save` followed by `load`
on a fresh manager instance bound to the same path reproduces the original
in-memory value (here on the nose, which implies equality as a sequence, as a
set, and as a key-value map respectively); `load` reports success (`true`). -/
theorem save_then_load_roundtrip {α : Type} [DecidableEq α] (c : CacheValue α)
    (h : isManagerCache c = true) :
    JsonCacheManager.loadDoc (freshCache c) (JsonCacheManager.saveDoc c) =
      ⟨.ok true, c⟩ := by
  cases c with
  | plain v =>
    cases v with
    | null => simp [isManagerCache] at h
    | bool b => simp [isManagerCache] at h
    | num n => simp [isManagerCache] at h
    | str s => simp [isManagerCache] at h
    | arr xs => rfl
    | obj es => rfl
  | set xs =>
    have hx : xs.Nodup := by simpa [isManagerCache] using h
    simp [JsonCacheManager.loadDoc, JsonCacheManager.saveDoc,
      JsonCacheManager.reviveRoot, freshCache, jsSetOfList_of_nodup xs hx]
  | map es =>
    have hx : (es.map Prod.fst).Nodup := by simpa [isManagerCache] using h
    simp [JsonCacheManager.loadDoc, JsonCacheManager.saveDoc,
      JsonCacheManager.reviveRoot, freshCache, jsMapOfEntries_of_nodup es hx]

/-- Claim C1, witness: a concrete `Set` cache round-trips. -/
theorem save_then_load_roundtrip_witness :
    JsonCacheManager.loadDoc (freshCache (CacheValue.set [(1 : Int), 2]))
        (JsonCacheManager.saveDoc (CacheValue.set [(1 : Int), 2])) =
      ⟨.ok true, CacheValue.set [(1 : Int), 2]⟩ :=
  save_then_load_roundtrip (CacheValue.set [(1 : Int), 2]) (by decide)

/-- Claim C5: tasks scheduled on one `PromiseQueue` settle in scheduling
order (FIFO), and each caller observes exactly its own task's outcome — a
task that rejects affects neither whether nor how any later-scheduled task
runs (the lock chain resets to fulfilled after every task). The executor
starts with `lock = Promise.resolve()`, i.e. `.ok ()`. -/
theorem promiseQueue_fifo_isolated {ε ρ : Type}
    (tasks : List (Unit → Except ε ρ)) :
    PromiseQueue.run (.ok ()) tasks = tasks.map fun task => task () := by
  induction tasks with
  | nil => rfl
  | cons t rest ih =>
    simp only [PromiseQueue.run, PromiseQueue.set, List.map_cons]
    cases h : t () <;> simp [h, ih]

/-- Claim C6: `load` (and `loadSync`) against a missing path, or a path whose
file has empty content, resolves with `false` — it neither throws nor
touches the in-memory cache, whatever that cache is. -/
theorem load_missing_or_empty_returns_false {α : Type} [DecidableEq α]
    (parse : String → Option (JsonDoc α)) (cache : CacheValue α) :
    JsonCacheManager.load parse cache .missing = ⟨.ok false, cache⟩ ∧
      JsonCacheManager.load parse cache (.content "") = ⟨.ok false, cache⟩ := by
  constructor
  · rfl
  · rfl

/-- Claim C10: a file whose content is only whitespace is treated exactly
like an empty file: the raw text is trimmed before the emptiness check, so
`load`/`loadSync` resolve with `false` without throwing and leave the
in-memory cache unchanged. -/
theorem load_whitespace_only_returns_false {α : Type} [DecidableEq α]
    (parse : String → Option (JsonDoc α)) (cache : CacheValue α) (raw : String)
    (h : jsTrim raw = "") :
    JsonCacheManager.load parse cache (.content raw) = ⟨.ok false, cache⟩ := by
  simp [JsonCacheManager.load, h]

/-- Claim C10, witness: a concrete whitespace-only file. -/
theorem load_whitespace_only_returns_false_witness :
    JsonCacheManager.load (fun _ => (none : Option (JsonDoc Int)))
        (CacheValue.plain (.arr [])) (.content "  \t\n ") =
      ⟨.ok false, CacheValue.plain (.arr [])⟩ :=
  load_whitespace_only_returns_false _ _ _ (by decide)

/-- Claim C2, counterexample: on a keyed cache that already maps `"a"` to
`0`, `add("a", 1)` followed by `add("a", 2)` leaves `get("a")` at the
pre-existing `0`, not at `v1 = 1` — the claim's "for every keyed cache"
fails whenever the key is already bound. -/
theorem keyed_add_overwrite_counterexample :
    RecordFileManager.get
        (RecordFileManager.add (.ok ())
          (RecordFileManager.add (.ok ()) [("a", (0 : Int))] "a" 1).cache
          "a" 2).cache "a" = some 0 ∧
      ¬ RecordFileManager.get
          (RecordFileManager.add (.ok ())
            (RecordFileManager.add (.ok ()) [("a", (0 : Int))] "a" 1).cache
            "a" 2).cache "a" = some 1 := by
  constructor
  · rfl
  · decide

/-- Claim C2 (amended): for every keyed cache (`RecordFileManager` or
`MapFileManager`) **in which `k` is not yet bound**, `add(k, v1)` followed by
`add(k, v2)` leaves `get(k) = v1`; the second `add` is a no-op that neither
changes the cache nor calls `save`. -/
theorem keyed_add_insert_only {α : Type} [DecidableEq α] (k : String) (v1 v2 : α)
    (so1 so2 so3 so4 : Except String Unit)
    (es m : List (String × α))
    (hr : RecordFileManager.has es k = false)
    (hm : MapFileManager.has m k = false) :
    (RecordFileManager.get
        (RecordFileManager.add so2
          (RecordFileManager.add so1 es k v1).cache k v2).cache k = some v1 ∧
      (RecordFileManager.add so2
          (RecordFileManager.add so1 es k v1).cache k v2).cache =
        (RecordFileManager.add so1 es k v1).cache ∧
      (RecordFileManager.add so2
          (RecordFileManager.add so1 es k v1).cache k v2).triggeredSave = false) ∧
    (MapFileManager.get
        (MapFileManager.add so4
          (MapFileManager.add so3 m k v1).cache k v2).cache k = some v1 ∧
      (MapFileManager.add so4
          (MapFileManager.add so3 m k v1).cache k v2).cache =
        (MapFileManager.add so3 m k v1).cache ∧
      (MapFileManager.add so4
          (MapFileManager.add so3 m k v1).cache k v2).triggeredSave = false) := by
  have hr' : jsMapHas es k = false := hr
  have hm' : jsMapHas m k = false := hm
  have hcache1 : (RecordFileManager.add so1 es k v1).cache = es ++ [(k, v1)] := by
    simp [RecordFileManager.add, RecordFileManager.has, hr',
      RecordFileManager.set, jsMapSet_of_not_has hr']
  have hcache2 : (MapFileManager.add so3 m k v1).cache = m ++ [(k, v1)] := by
    simp [MapFileManager.add, MapFileManager.has, hm',
      MapFileManager.set, jsMapSet_of_not_has hm']
  have hhas1 : jsMapHas (es ++ [(k, v1)]) k = true := by
    rw [jsMapHas_append, hr']
    simp [jsMapHas]
  have hhas2 : jsMapHas (m ++ [(k, v1)]) k = true := by
    rw [jsMapHas_append, hm']
    simp [jsMapHas]
  constructor
  · rw [hcache1]
    simp only [RecordFileManager.add, RecordFileManager.has, hhas1, if_true]
    exact ⟨jsMapGet_append_self hr' v1, trivial, trivial⟩
  · rw [hcache2]
    simp only [MapFileManager.add, MapFileManager.has, hhas2, if_true]
    exact ⟨jsMapGet_append_self hm' v1, trivial, trivial⟩

/-- Claim C2 (amended), witness: concrete fresh-key runs on both keyed
managers. -/
theorem keyed_add_insert_only_witness :
    (RecordFileManager.get
        (RecordFileManager.add (.ok ())
          (RecordFileManager.add (.ok ()) [("b", (5 : Int))] "a" 1).cache
          "a" 2).cache "a" = some 1 ∧
      (RecordFileManager.add (.ok ())
          (RecordFileManager.add (.ok ()) [("b", (5 : Int))] "a" 1).cache
          "a" 2).cache =
        (RecordFileManager.add (.ok ()) [("b", (5 : Int))] "a" 1).cache ∧
      (RecordFileManager.add (.ok ())
          (RecordFileManager.add (.ok ()) [("b", (5 : Int))] "a" 1).cache
          "a" 2).triggeredSave = false) ∧
    (MapFileManager.get
        (MapFileManager.add (.ok ())
          (MapFileManager.add (.ok ()) ([] : List (String × Int)) "a" 1).cache
          "a" 2).cache "a" = some 1 ∧
      (MapFileManager.add (.ok ())
          (MapFileManager.add (.ok ()) ([] : List (String × Int)) "a" 1).cache
          "a" 2).cache =
        (MapFileManager.add (.ok ()) ([] : List (String × Int)) "a" 1).cache ∧
      (MapFileManager.add (.ok ())
          (MapFileManager.add (.ok ()) ([] : List (String × Int)) "a" 1).cache
          "a" 2).triggeredSave = false) :=
  keyed_add_insert_only "a" 1 2 (.ok ()) (.ok ()) (.ok ()) (.ok ())
    [("b", (5 : Int))] ([] : List (String × Int)) (by decide) (by decide)

/-- Claim C3, counterexample: a keyed cache held as a plain object
(`RecordFileManager`, fresh cache `{}`) reading the JSON array `[1,2,3]` — a
top-level kind disagreement — does **not** throw: `load` succeeds and
replaces the in-memory cache with the array. -/
theorem shape_mismatch_counterexample :
    structuralKind (JsonDoc.arr [(1 : Int), 2, 3]) ≠
        cacheStructuralKind (CacheValue.plain (JsonDoc.obj ([] : List (String × Int)))) ∧
      JsonCacheManager.loadDoc (CacheValue.plain (JsonDoc.obj ([] : List (String × Int))))
          (JsonDoc.arr [(1 : Int), 2, 3]) =
        ⟨.ok true, CacheValue.plain (JsonDoc.arr [(1 : Int), 2, 3])⟩ := by
  constructor
  · decide
  · rfl

/-- Claim C3 (amended): a `Set` cache rejects every non-array document and a
`Map` cache every non-object document with the reviver's shape-mismatch
`Error` — a `LoadError.shapeMismatch`, distinct by construction from the
`SyntaxError` (`LoadError.parseFailure`) malformed JSON raises — leaving the
in-memory cache unchanged; a plain-JSON cache (`ArrayFileManager`,
`RecordFileManager`) throws only when JavaScript's `typeof` distinguishes the
cache from the document, so kind disagreements inside `typeof "object"`
(a Record cache reading an array, an Array cache reading an object or
`null`) are silently accepted instead. -/
theorem load_shape_mismatch_amended {α : Type} [DecidableEq α]
    (xs : List α) (es : List (String × α)) (pv d1 d2 d3 : JsonDoc α)
    (h1 : structuralKind d1 ≠ .arrayKind)
    (h2 : structuralKind d2 ≠ .objectKind)
    (h3 : jsTypeof pv ≠ jsTypeof d3) :
    JsonCacheManager.loadDoc (.set xs) d1 =
        ⟨.error (.shapeMismatch "Expected an array or empty for Set Cache."),
          .set xs⟩ ∧
      JsonCacheManager.loadDoc (.map es) d2 =
        ⟨.error (.shapeMismatch "Expected an object or empty for Map Cache."),
          .map es⟩ ∧
      JsonCacheManager.loadDoc (.plain pv) d3 =
        ⟨.error (.shapeMismatch "The file content does not match the cache type."),
          .plain pv⟩ ∧
      ∀ msg, LoadError.shapeMismatch msg ≠ LoadError.parseFailure := by
  refine ⟨?_, ?_, ?_, fun msg h => LoadError.noConfusion h⟩
  · cases d1 <;> first
      | rfl
      | exact absurd rfl h1
  · cases d2 <;> first
      | rfl
      | exact absurd rfl h2
  · have harr : ¬ (jsIsArray pv = true ∧ jsIsArray d3 = true) := by
      rintro ⟨ha, hb⟩
      cases pv <;> cases d3 <;> simp_all [jsIsArray, jsTypeof]
    have hcond : ((jsTypeof pv != jsTypeof d3) &&
        (!(jsIsArray pv) || !(jsIsArray d3))) = true := by
      have hne : (jsTypeof pv != jsTypeof d3) = true := by
        simpa [bne_iff_ne] using h3
      cases hpa : jsIsArray pv with
      | false => simp [hne, hpa]
      | true =>
        cases hpb : jsIsArray d3 with
        | false => simp [hne, hpa, hpb]
        | true => exact absurd ⟨hpa, hpb⟩ harr
    simp [JsonCacheManager.loadDoc, JsonCacheManager.reviveRoot, hcond]

/-- Claim C3 (amended), witness: a `Set` cache reading a number, a `Map`
cache reading an array, a plain array cache reading a number. -/
theorem load_shape_mismatch_amended_witness :
    JsonCacheManager.loadDoc (CacheValue.set ([] : List Int)) (JsonDoc.num 5) =
        ⟨.error (.shapeMismatch "Expected an array or empty for Set Cache."),
          CacheValue.set []⟩ ∧
      JsonCacheManager.loadDoc (CacheValue.map ([] : List (String × Int)))
          (JsonDoc.arr [1, 2, 3]) =
        ⟨.error (.shapeMismatch "Expected an object or empty for Map Cache."),
          CacheValue.map []⟩ ∧
      JsonCacheManager.loadDoc (CacheValue.plain (JsonDoc.arr ([] : List Int)))
          (JsonDoc.num 5) =
        ⟨.error (.shapeMismatch "The file content does not match the cache type."),
          CacheValue.plain (JsonDoc.arr [])⟩ ∧
      ∀ msg, LoadError.shapeMismatch msg ≠ LoadError.parseFailure :=
  load_shape_mismatch_amended [] [] (JsonDoc.arr ([] : List Int))
    (JsonDoc.num 5) (JsonDoc.arr [1, 2, 3]) (JsonDoc.num 5)
    (by decide) (by decide) (by decide)

/-- Claim C4: `ArrayFileManager.add` and `RecordFileManager.add` return their
`save`, so a failed write rejects the caller's promise — but
`MapFileManager.add` invokes `this.set(key, value)` without returning or
awaiting it, so when the underlying write fails the caller's promise still
resolves with `undefined` even though the in-memory mutation was applied and
the failing `save` did run (its rejection is left unobserved). -/
theorem map_add_swallows_save_error :
    (MapFileManager.add (.error "EACCES: permission denied")
        ([] : List (String × Int)) "k" 7).result = .ok () ∧
      (MapFileManager.add (.error "EACCES: permission denied")
        ([] : List (String × Int)) "k" 7).triggeredSave = true ∧
      (MapFileManager.add (.error "EACCES: permission denied")
        ([] : List (String × Int)) "k" 7).cache = [("k", 7)] ∧
      (RecordFileManager.add (.error "EACCES: permission denied")
        ([] : List (String × Int)) "k" 7).result =
        .error "EACCES: permission denied" ∧
      (ArrayFileManager.add (.error "EACCES: permission denied")
        ([] : List Int) 7 true).result = .error "EACCES: permission denied" := by
  refine ⟨rfl, rfl, rfl, rfl, rfl⟩

/-- Claim C7: the delete operation of the repository's sequence caches lives
on the superseded `ListFileManager` (`src/src/classes/manager.ts`), not on
`ArrayFileManager`; it removes **all** elements equal to the argument and
persists, and on the in-memory sequence `["x","y"]`, after `delete("y")`,
`at(-1)` (the `get(-1)` of the claim's scenario) yields `"x"`. -/
theorem listManager_delete_scenario :
    (ListFileManager.delete (.ok ()) ["x", "y"] "y").cache = ["x"] ∧
      (ListFileManager.delete (.ok ()) ["x", "y"] "y").triggeredSave = true ∧
      jsAt (ListFileManager.delete (.ok ()) ["x", "y"] "y").cache (-1) =
        some "x" ∧
      (ListFileManager.delete (.ok ()) ["x", "x", "y"] "x").cache = ["y"] := by
  refine ⟨rfl, rfl, by decide, rfl⟩

/-- Claim C8, counterexample: on a sequence cache that already holds `7`
twice (buildable with `add(7, unique=false)`), two `add(7, unique=true)`
calls leave two occurrences, not "exactly one" — the claim's "for every
sequence cache" fails when duplicates pre-exist. -/
theorem sequence_add_unique_counterexample :
    ((ArrayFileManager.add (.ok ())
          (ArrayFileManager.add (.ok ()) [(7 : Int), 7] 7 true).cache
          7 true).cache.count 7 = 2) ∧
      ¬ ((ArrayFileManager.add (.ok ())
          (ArrayFileManager.add (.ok ()) [(7 : Int), 7] 7 true).cache
          7 true).cache.count 7 = 1) := by
  constructor
  · rfl
  · decide

/-- Claim C8 (amended): on a sequence cache **not yet containing `x`**, two
`add(x, unique=true)` calls leave exactly one occurrence of `x` and two
`add(x, unique=false)` calls leave exactly two; and every `add` call, on any
cache with any flag — the suppressed duplicate no-op included — runs `save`
and hands its outcome to the caller. -/
theorem sequence_add_unique_amended {α : Type} [DecidableEq α]
    (xs ys : List α) (x : α) (so1 so2 so3 : Except String Unit) (u : Bool)
    (h : x ∉ xs) :
    ((ArrayFileManager.add so2 (ArrayFileManager.add so1 xs x true).cache
        x true).cache.count x = 1) ∧
      ((ArrayFileManager.add so2 (ArrayFileManager.add so1 xs x false).cache
        x false).cache.count x = 2) ∧
      (ArrayFileManager.add so3 ys x u).triggeredSave = true ∧
      (ArrayFileManager.add so3 ys x u).result = so3 := by
  have hhas : ArrayFileManager.has xs x = false := by
    simp [ArrayFileManager.has, jsIncludes, h]
  have hcount : xs.count x = 0 := List.count_eq_zero.mpr h
  have hc1 : (ArrayFileManager.add so1 xs x true).cache = xs ++ [x] := by
    simp [ArrayFileManager.add, hhas]
  have hhas2 : ArrayFileManager.has (xs ++ [x]) x = true := by
    simp [ArrayFileManager.has, jsIncludes]
  refine ⟨?_, ?_, rfl, rfl⟩
  · rw [hc1]
    simp [ArrayFileManager.add, hhas2, List.count_append, hcount]
  · simp [ArrayFileManager.add, List.count_append, hcount]

/-- Claim C8 (amended), witness: concrete runs from the empty cache. -/
theorem sequence_add_unique_amended_witness :
    ((ArrayFileManager.add (.ok ())
        (ArrayFileManager.add (.ok ()) ([] : List Int) 7 true).cache
        7 true).cache.count 7 = 1) ∧
      ((ArrayFileManager.add (.ok ())
        (ArrayFileManager.add (.ok ()) ([] : List Int) 7 false).cache
        7 false).cache.count 7 = 2) ∧
      (ArrayFileManager.add (.ok ()) ([(7 : Int)]) 7 true).triggeredSave = true ∧
      (ArrayFileManager.add (.ok ()) ([(7 : Int)]) 7 true).result = .ok () :=
  sequence_add_unique_amended [] [(7 : Int)] 7 (.ok ()) (.ok ()) (.ok ()) true
    (by decide)

/-- Claim C9: `distinct()` returns the cache's elements with duplicates
removed, first occurrence winning and order preserved
(`Array.from(new Set(this.cache))` equals the first-occurrence dedup of the
list), leaves the in-memory cache untouched, and never calls `save`; on
`[1,2,2,3,1]` it yields `[1,2,3]`. -/
theorem distinct_first_occurrence {α : Type} [DecidableEq α] (xs : List α) :
    (ArrayFileManager.distinct xs).ret = firstOccurrenceDedup xs ∧
      (ArrayFileManager.distinct xs).cache = xs ∧
      (ArrayFileManager.distinct xs).triggeredSave = false ∧
      (ArrayFileManager.distinct [(1 : Int), 2, 2, 3, 1]).ret = [1, 2, 3] := by
  refine ⟨jsSetOfList_eq_dedup xs, rfl, rfl, by decide⟩
